import Mathlib

/-!
Verification of the NeoPixel RLE program decoder and per-pixel color state
machine (Larry's NeoPixel / WS2812B library).

The repository contains two variants of the driver:
* `neopixel.ino` — modes PULSE (0), SIMPLE (0x40), GRADIENT (0x80), END
  (0xc0); the GAP arm of the decode switch is commented out, PULSE opcodes
  are handled only by `LEDInit`, and `LEDPulse` implements the bounded
  oscillation.  Embedded below in namespace `Ino`.
* `src/unnamed/part_001` — modes GAP (0), SIMPLE (0x40), GRADIENT (0x80),
  END (0xc0); no pulse support.  Embedded below at top level.

Machine bytes are modelled as `Nat` values; additions on 8-bit channels are
performed modulo 256, exactly matching C `byte += signed char` arithmetic on
the byte patterns (a two's-complement delta byte `d` satisfies
`x + d ≡ x + signed d [MOD 256]`).  Program-memory fetches through the run
cursor are partial (`Option`): a fetch at or past the program length yields
`none`, so safety claims about buffer reads are statements that the decoder
never produces `none`.  The flash palette is an unbounded byte region, read
totally: `pal i % 256` models `pgm_read_byte(pPalette + i)` (the source has
no palette bounds check).  The C pointers `pRLEStart` / `pRLE` become an
index from the program start, so `pRLEStart` is identically 0 and only the
cursor index `pRLE` is kept in the state.
-/

/-- The `LEDSTRING` state struct.  This is the `neopixel.ino` layout; the
`part_001` layout is the same minus the pulse fields (`iDir`, `sr`..`eb`),
which the `part_001` functions below simply never touch. -/
@[ext] structure LEDSTRING where
  iLen : Nat
  lastOP : Nat
  pRLE : Nat
  iCount : Nat
  iDir : Nat
  r : Nat
  g : Nat
  b : Nat
  dr : Nat
  dg : Nat
  db : Nat
  sr : Nat
  sg : Nat
  sb : Nat
  er : Nat
  eg : Nat
  eb : Nat
deriving Repr, DecidableEq

/-- Shared decode tail of `LEDInit` / `LEDStep` in `src/unnamed/part_001`
(lines 174–196 and 227–251): given the already-fetched opcode byte `bOp`
and the cursor `s` sitting just past it, set
`iCount := bOp & LENGTH_MASK`, `lastOP := bOp & MODE_MASK`, then run the
per-mode `switch` (GAP stores black, SIMPLE loads one palette entry,
GRADIENT loads a palette entry plus three delta bytes; any other mode value
falls through the switch).  `LEDInit`'s GAP arm leaves the `memset`-zeroed
colors alone where `LEDStep`'s stores zeroes; on a zeroed state the two
coincide, so this shared function is exact for both. -/
def decodeOp (p : List Nat) (pal : Nat → Nat) (st : LEDSTRING) (bOp s : Nat) :
    Option LEDSTRING :=
  if bOp &&& 0xc0 = 0 then       -- MODE_GAP
    some { st with
           iCount := bOp &&& 0x3f, lastOP := bOp &&& 0xc0,
           r := 0, g := 0, b := 0, pRLE := s }
  else if bOp &&& 0xc0 = 0x40 then  -- MODE_SIMPLE
    match p[s]? with
    | some idx =>
        some { st with
               iCount := bOp &&& 0x3f, lastOP := bOp &&& 0xc0,
               r := pal (3 * idx) % 256, g := pal (3 * idx + 1) % 256,
               b := pal (3 * idx + 2) % 256, pRLE := s + 1 }
    | none => none
  else if bOp &&& 0xc0 = 0x80 then  -- MODE_GRADIENT
    match p[s]?, p[s + 1]?, p[s + 2]?, p[s + 3]? with
    | some idx, some d1, some d2, some d3 =>
        some { st with
               iCount := bOp &&& 0x3f, lastOP := bOp &&& 0xc0,
               r := pal (3 * idx) % 256, g := pal (3 * idx + 1) % 256,
               b := pal (3 * idx + 2) % 256,
               dr := d1, dg := d2, db := d3, pRLE := s + 4 }
    | _, _, _, _ => none
  else -- mode bits 11 on a byte other than 0xc0: no switch arm matches
    some { st with iCount := bOp &&& 0x3f, lastOP := bOp &&& 0xc0, pRLE := s }

/-- One iteration of the `for (iStep = 0; ...)` body of `LEDStep`
(`src/unnamed/part_001` lines 206–251): if the current run still has
remaining count, continue it (GRADIENT adds the deltas, everything
decrements the count) without touching program memory; otherwise fetch the
next opcode byte, restarting from program start when that byte equals
`MODE_END` (0xc0), and decode it. -/
def LEDStepOnce (p : List Nat) (pal : Nat → Nat) (st : LEDSTRING) :
    Option LEDSTRING :=
  if 0 < st.iCount then
    if st.lastOP = 0x80 then
      some { st with
             r := (st.r + st.dr) % 256, g := (st.g + st.dg) % 256,
             b := (st.b + st.db) % 256, iCount := st.iCount - 1 }
    else
      some { st with iCount := st.iCount - 1 }
  else
    match p[st.pRLE]? with
    | none => none
    | some b0 =>
      if b0 = 0xc0 then
        match p[0]? with
        | none => none
        | some b1 => decodeOp p pal st b1 1
      else decodeOp p pal st b0 (st.pRLE + 1)

/-- `LEDStep(pString, iStepCount)`: advance the pattern `n` single steps.
The C routine threads the run cursor through a local `s` and stores it back
once at the end; since `pRLE` is exactly that cursor and nothing else reads
it inside the loop, iterating the single-step function is the same. -/
def LEDStep (p : List Nat) (pal : Nat → Nat) : Nat → LEDSTRING → Option LEDSTRING
  | 0, st => some st
  | n + 1, st => (LEDStepOnce p pal st).bind (LEDStep p pal n)

/-- The all-zero state produced by `memset(pString, 0, sizeof(LEDSTRING))`
followed by storing the LED count. -/
def zeroState (iNumLEDs : Nat) : LEDSTRING :=
  { iLen := iNumLEDs, lastOP := 0, pRLE := 0, iCount := 0, iDir := 0,
    r := 0, g := 0, b := 0, dr := 0, dg := 0, db := 0,
    sr := 0, sg := 0, sb := 0, er := 0, eg := 0, eb := 0 }

/-- `LEDInit(pRLE, pString, iNumLEDs)` of `src/unnamed/part_001`
(lines 160–196): zero the struct, record the LED count, fetch the first
opcode byte (there is no `MODE_END` check here) and decode it. -/
def LEDInit (p : List Nat) (pal : Nat → Nat) (iNumLEDs : Nat) :
    Option LEDSTRING :=
  match p[0]? with
  | none => none
  | some b0 => decodeOp p pal (zeroState iNumLEDs) b0 1

namespace Ino

/-- Decode tail of `LEDStep` in `neopixel.ino` (lines 399–424): the switch
handles only `MODE_SIMPLE` and `MODE_GRADIENT`; a `MODE_PULSE` (0) opcode
byte, or a mode-11 byte other than 0xc0, falls through the switch with only
count, mode and cursor updated — in particular the nine PULSE parameter
bytes are not consumed here. -/
def decodeOp (p : List Nat) (pal : Nat → Nat) (st : LEDSTRING) (bOp s : Nat) :
    Option LEDSTRING :=
  if bOp &&& 0xc0 = 0x40 then  -- MODE_SIMPLE
    match p[s]? with
    | some idx =>
        some { st with
               iCount := bOp &&& 0x3f, lastOP := bOp &&& 0xc0,
               r := pal (3 * idx) % 256, g := pal (3 * idx + 1) % 256,
               b := pal (3 * idx + 2) % 256, pRLE := s + 1 }
    | none => none
  else if bOp &&& 0xc0 = 0x80 then  -- MODE_GRADIENT
    match p[s]?, p[s + 1]?, p[s + 2]?, p[s + 3]? with
    | some idx, some d1, some d2, some d3 =>
        some { st with
               iCount := bOp &&& 0x3f, lastOP := bOp &&& 0xc0,
               r := pal (3 * idx) % 256, g := pal (3 * idx + 1) % 256,
               b := pal (3 * idx + 2) % 256,
               dr := d1, dg := d2, db := d3, pRLE := s + 4 }
    | _, _, _, _ => none
  else -- MODE_PULSE, or mode bits 11 on a byte other than 0xc0
    some { st with iCount := bOp &&& 0x3f, lastOP := bOp &&& 0xc0, pRLE := s }

/-- One iteration of the `LEDStep` loop body of `neopixel.ino`
(lines 378–425); same skeleton as the `part_001` variant but with the
`Ino.decodeOp` switch (no GAP arm, no PULSE arm). -/
def LEDStepOnce (p : List Nat) (pal : Nat → Nat) (st : LEDSTRING) :
    Option LEDSTRING :=
  if 0 < st.iCount then
    if st.lastOP = 0x80 then
      some { st with
             r := (st.r + st.dr) % 256, g := (st.g + st.dg) % 256,
             b := (st.b + st.db) % 256, iCount := st.iCount - 1 }
    else
      some { st with iCount := st.iCount - 1 }
  else
    match p[st.pRLE]? with
    | none => none
    | some b0 =>
      if b0 = 0xc0 then
        match p[0]? with
        | none => none
        | some b1 => decodeOp p pal st b1 1
      else decodeOp p pal st b0 (st.pRLE + 1)

/-- `LEDStep(pString, iStepCount)` of `neopixel.ino`: iterate the single
step `n` times. -/
def LEDStep (p : List Nat) (pal : Nat → Nat) : Nat → LEDSTRING → Option LEDSTRING
  | 0, st => some st
  | n + 1, st => (Ino.LEDStepOnce p pal st).bind (Ino.LEDStep p pal n)

/-- `LEDInit` of `neopixel.ino` (lines 263–308), including the `MODE_PULSE`
arm: it loads the start color into the current color and the `sr`..`sb`
bounds, the three delta bytes, and the end color into `er`..`eb`, from the
nine parameter bytes, leaves `iDir = 0` (incrementing), and advances the
cursor past all nine parameter bytes. -/
def LEDInit (p : List Nat) (pal : Nat → Nat) (iNumLEDs : Nat) :
    Option LEDSTRING :=
  match p[0]? with
  | none => none
  | some b0 =>
    if b0 &&& 0xc0 = 0 then  -- MODE_PULSE
      match p[1]?, p[2]?, p[3]?, p[4]?, p[5]?, p[6]?, p[7]?, p[8]?, p[9]? with
      | some a1, some a2, some a3, some d1, some d2, some d3,
        some e1, some e2, some e3 =>
          some { zeroState iNumLEDs with
                 iCount := b0 &&& 0x3f, lastOP := b0 &&& 0xc0,
                 sr := a1, r := a1, sg := a2, g := a2, sb := a3, b := a3,
                 dr := d1, dg := d2, db := d3,
                 er := e1, eg := e2, eb := e3, iDir := 0, pRLE := 10 }
      | _, _, _, _, _, _, _, _, _ => none
    else decodeOp p pal (zeroState iNumLEDs) b0 1

end Ino

/-- Signed value of a C `signed char` stored as its byte pattern. -/
def sgnc (d : Nat) : Int := if d < 128 then (d : Int) else (d : Int) - 256

/-- The C cast `(uint8_t) x` of an `int` value. -/
def toByte (x : Int) : Nat := (x % 256).toNat

namespace Ino

/-- `LEDPulse` (`neopixel.ino` lines 313–365), transcribed test by test.
The candidate channel values are computed in C `int`s (adding
the signed deltas when `iDir = 0`, subtracting them otherwise).  The six
reversal tests are kept exactly as written in the source — including the
misparenthesised blue-channel tests of lines 341/343, where
`b > (pString->eb || b < pString->sb)` compares the candidate `b` against
the *truth value* (0 or 1) of `eb || b < sb`, and symmetrically for
line 343.  On reversal, all channels are clamped to the bound being
approached and the direction flag flips; finally the possibly-clamped
candidates are stored back through the `(uint8_t)` cast. -/
def LEDPulse (st : LEDSTRING) : LEDSTRING :=
  let r0 : Int := st.r
  let g0 : Int := st.g
  let b0 : Int := st.b
  let r : Int := if st.iDir = 0 then r0 + sgnc st.dr else r0 - sgnc st.dr
  let g : Int := if st.iDir = 0 then g0 + sgnc st.dg else g0 - sgnc st.dg
  let b : Int := if st.iDir = 0 then b0 + sgnc st.db else b0 - sgnc st.db
  let bChangeDir : Bool :=
    if st.sr < st.er ∧ (r > (st.er : Int) ∨ r < (st.sr : Int)) then true
    else if st.er < st.sr ∧ (r < (st.er : Int) ∨ r > (st.sr : Int)) then true
    else if st.sg < st.eg ∧ (g > (st.eg : Int) ∨ g < (st.sg : Int)) then true
    else if st.eg < st.sg ∧ (g < (st.eg : Int) ∨ g > (st.sg : Int)) then true
    else if st.sb < st.eb ∧
            b > (if st.eb ≠ 0 ∨ b < (st.sb : Int) then (1 : Int) else 0) then true
    else if st.eb < st.sb ∧
            b < (if st.eb ≠ 0 ∨ b > (st.sb : Int) then (1 : Int) else 0) then true
    else false
  if bChangeDir then
    if st.iDir = 0 then
      { st with
        r := toByte st.er, g := toByte st.eg, b := toByte st.eb, iDir := 1 }
    else
      { st with
        r := toByte st.sr, g := toByte st.sg, b := toByte st.sb, iDir := 0 }
  else
    { st with r := toByte r, g := toByte g, b := toByte b }

end Ino

/-- The pulse step as the spec (§4.3) words it, for comparison with
`Ino.LEDPulse`: every channel uses the same symmetric bound-crossing rule —
an ascending channel reverses when its candidate exceeds the high bound or
falls below the low bound, a descending channel symmetrically.  Identical
to `Ino.LEDPulse` except for the two blue-channel tests. -/
def LEDPulseSpec (st : LEDSTRING) : LEDSTRING :=
  let r0 : Int := st.r
  let g0 : Int := st.g
  let b0 : Int := st.b
  let r : Int := if st.iDir = 0 then r0 + sgnc st.dr else r0 - sgnc st.dr
  let g : Int := if st.iDir = 0 then g0 + sgnc st.dg else g0 - sgnc st.dg
  let b : Int := if st.iDir = 0 then b0 + sgnc st.db else b0 - sgnc st.db
  let bChangeDir : Bool :=
    if st.sr < st.er ∧ (r > (st.er : Int) ∨ r < (st.sr : Int)) then true
    else if st.er < st.sr ∧ (r < (st.er : Int) ∨ r > (st.sr : Int)) then true
    else if st.sg < st.eg ∧ (g > (st.eg : Int) ∨ g < (st.sg : Int)) then true
    else if st.eg < st.sg ∧ (g < (st.eg : Int) ∨ g > (st.sg : Int)) then true
    else if st.sb < st.eb ∧ (b > (st.eb : Int) ∨ b < (st.sb : Int)) then true
    else if st.eb < st.sb ∧ (b < (st.eb : Int) ∨ b > (st.sb : Int)) then true
    else false
  if bChangeDir then
    if st.iDir = 0 then
      { st with
        r := toByte st.er, g := toByte st.eg, b := toByte st.eb, iDir := 1 }
    else
      { st with
        r := toByte st.sr, g := toByte st.sg, b := toByte st.sb, iDir := 0 }
  else
    { st with r := toByte r, g := toByte g, b := toByte b }

namespace Ino

/-- The copy of the decode switch that `LEDShow` carries inline
(`neopixel.ino` lines 504–529, using the local `iOff` instead of `i`);
textually duplicated in the C source "to avoid manipulating the values
indirectly through pointers", and therefore transcribed separately here. -/
def decodeShow (p : List Nat) (pal : Nat → Nat) (st : LEDSTRING) (bOp s : Nat) :
    Option LEDSTRING :=
  if bOp &&& 0xc0 = 0x40 then  -- MODE_SIMPLE
    match p[s]? with
    | some idx =>
        some { st with
               iCount := bOp &&& 0x3f, lastOP := bOp &&& 0xc0,
               r := pal (3 * idx) % 256, g := pal (3 * idx + 1) % 256,
               b := pal (3 * idx + 2) % 256, pRLE := s + 1 }
    | none => none
  else if bOp &&& 0xc0 = 0x80 then  -- MODE_GRADIENT
    match p[s]?, p[s + 1]?, p[s + 2]?, p[s + 3]? with
    | some idx, some d1, some d2, some d3 =>
        some { st with
               iCount := bOp &&& 0x3f, lastOP := bOp &&& 0xc0,
               r := pal (3 * idx) % 256, g := pal (3 * idx + 1) % 256,
               b := pal (3 * idx + 2) % 256,
               dr := d1, dg := d2, db := d3, pRLE := s + 4 }
    | _, _, _, _ => none
  else
    some { st with iCount := bOp &&& 0x3f, lastOP := bOp &&& 0xc0, pRLE := s }

/-- The per-pixel loop of `LEDShow` (`neopixel.ino` lines 480–530) over the
local copy of the state: on each iteration emit the current color, then run
the inlined repetition of the `LEDStep` logic.  The local cursor `s` of the
C code is carried in the `pRLE` field of the local state (the loop never
reads the stale `string.pRLE` field, so this is exact). -/
def LEDShowGo (p : List Nat) (pal : Nat → Nat) :
    Nat → LEDSTRING → Option (List (Nat × Nat × Nat))
  | 0, _ => some []
  | n + 1, st =>
    let next : Option LEDSTRING :=
      if 0 < st.iCount then
        if st.lastOP = 0x80 then
          some { st with
                 r := (st.r + st.dr) % 256, g := (st.g + st.dg) % 256,
                 b := (st.b + st.db) % 256, iCount := st.iCount - 1 }
        else
          some { st with iCount := st.iCount - 1 }
      else
        match p[st.pRLE]? with
        | none => none
        | some b0 =>
          if b0 = 0xc0 then
            match p[0]? with
            | none => none
            | some b1 => decodeShow p pal st b1 1
          else decodeShow p pal st b0 (st.pRLE + 1)
    match next with
    | none => none
    | some st1 => (LEDShowGo p pal n st1).map fun L => (st.r, st.g, st.b) :: L

/-- `LEDShow(pString)` (`neopixel.ino` lines 472–532): `memcpy` the caller's
state into a local, loop over `iLen` pixels emitting one color per pixel.
The returned list is the sequence of (r, g, b) triples handed to
`LEDSendColor` in pixel order. -/
def LEDShow (p : List Nat) (pal : Nat → Nat) (st : LEDSTRING) :
    Option (List (Nat × Nat × Nat)) :=
  LEDShowGo p pal st.iLen st

/-- `LEDShow` together with what its caller observes afterwards: the frame
that was transmitted and the caller's `LEDSTRING`, which the C function
never writes through (it mutates only the `memcpy`-ed local copy), so the
second component is the argument itself. -/
def LEDShowRet (p : List Nat) (pal : Nat → Nat) (st : LEDSTRING) :
    Option ((List (Nat × Nat × Nat)) × LEDSTRING) :=
  (LEDShow p pal st).map fun L => (L, st)

end Ino

/-!  ## Run-level description of well-formed RLE programs

The spec (§3, §6, §7) calls a program well-formed when it is a sequence of
complete opcodes, each with its parameter bytes, terminated by the END
sentinel at an opcode boundary.  The claims about safety and periodicity
quantify over such programs, so they are represented here as lists of
decoded runs which are then re-encoded to the byte format of §6. -/

/-- One non-PULSE run: the 6-bit length field (a run covers `len + 1`
pixels) plus the mode-specific parameters. -/
inductive LRun where
  | gap (len : Nat)
  | solid (len idx : Nat)
  | grad (len idx d1 d2 d3 : Nat)
deriving Repr, DecidableEq

/-- The 6-bit length field of a run. -/
def runField : LRun → Nat
  | .gap l => l
  | .solid l _ => l
  | .grad l _ _ _ _ => l

/-- The mode bits of a run's opcode byte. -/
def runMode : LRun → Nat
  | .gap _ => 0
  | .solid _ _ => 0x40
  | .grad _ _ _ _ _ => 0x80

/-- The opcode byte of a run (mode bits ored with the length field; written
with `+` since the length field is below 64). -/
def opByte : LRun → Nat
  | .gap l => l
  | .solid l _ => 0x40 + l
  | .grad l _ _ _ _ => 0x80 + l

/-- The byte encoding of one run: opcode byte followed by its parameters. -/
def encRun : LRun → List Nat
  | .gap l => [l]
  | .solid l i => [0x40 + l, i]
  | .grad l i d1 d2 d3 => [0x80 + l, i, d1, d2, d3]

/-- Encoded size of one run. -/
def encLen : LRun → Nat
  | .gap _ => 1
  | .solid _ _ => 2
  | .grad _ _ _ _ _ => 5

/-- Concatenated encoding of a run list. -/
def encRuns : List LRun → List Nat
  | [] => []
  | r :: rs => encRun r ++ encRuns rs

/-- A complete well-formed program: the encoded runs followed by the END
sentinel byte 0xc0. -/
def encProg (rs : List LRun) : List Nat := encRuns rs ++ [0xc0]

/-- Byte offset of the start of run `j` inside `encProg rs` (for
`j = rs.length` this is the offset of the END byte). -/
def off : List LRun → Nat → Nat
  | _, 0 => 0
  | [], _ + 1 => 0
  | r :: rs, j + 1 => encLen r + off rs j

/-- Total pixel count of one pass over the program: each run covers
`runField + 1` pixels. -/
def sumLen : List LRun → Nat
  | [] => 0
  | r :: rs => (runField r + 1) + sumLen rs

/-- Well-formedness of a single run: the length field fits in 6 bits and
every encoded byte is a byte. -/
def runWF (r : LRun) : Prop := runField r < 64 ∧ ∀ x ∈ encRun r, x < 256

/-- Delta bytes held in `dr`, `dg`, `db` after decoding one more run: only
a GRADIENT decode overwrites them. -/
def updDelta (D : Nat × Nat × Nat) : LRun → Nat × Nat × Nat
  | .grad _ _ d1 d2 d3 => (d1, d2, d3)
  | _ => D

/-- Delta bytes after decoding a whole list of runs in order. -/
def deltaAfter (D : Nat × Nat × Nat) (rs : List LRun) : Nat × Nat × Nat :=
  rs.foldl updDelta D

/-- The state produced by the decode switch for run `r` on top of state
`st`, with the cursor left at `c` (the offset just past the run's
encoding): count and mode from the opcode byte, colors from the run
(black, palette entry, palette entry resp.), deltas overwritten only by
GRADIENT, all other fields carried over. -/
def applyRun (pal : Nat → Nat) (r : LRun) (st : LEDSTRING) (c : Nat) :
    LEDSTRING :=
  match r with
  | .gap l =>
      { st with iCount := l, lastOP := 0, r := 0, g := 0, b := 0, pRLE := c }
  | .solid l i =>
      { st with
        iCount := l, lastOP := 0x40,
        r := pal (3 * i) % 256, g := pal (3 * i + 1) % 256,
        b := pal (3 * i + 2) % 256, pRLE := c }
  | .grad l i d1 d2 d3 =>
      { st with
        iCount := l, lastOP := 0x80,
        r := pal (3 * i) % 256, g := pal (3 * i + 1) % 256,
        b := pal (3 * i + 2) % 256,
        dr := d1, dg := d2, db := d3, pRLE := c }

/-- Agreement of two states on every field except the delta bytes. -/
def eqCore (s t : LEDSTRING) : Prop :=
  s.iLen = t.iLen ∧ s.lastOP = t.lastOP ∧ s.pRLE = t.pRLE ∧
  s.iCount = t.iCount ∧ s.r = t.r ∧ s.g = t.g ∧ s.b = t.b ∧
  s.iDir = t.iDir ∧ s.sr = t.sr ∧ s.sg = t.sg ∧ s.sb = t.sb ∧
  s.er = t.er ∧ s.eg = t.eg ∧ s.eb = t.eb

/-! ## Basic facts about masks and the encoding -/

lemma mask_gap {l : Nat} (h : l < 64) : l &&& 0x3f = l ∧ l &&& 0xc0 = 0 := by
  have h64 : ∀ x : Fin 64, x.val &&& 0x3f = x.val ∧ x.val &&& 0xc0 = 0 := by
    decide
  exact h64 ⟨l, h⟩

lemma mask_solid {l : Nat} (h : l < 64) :
    (0x40 + l) &&& 0x3f = l ∧ (0x40 + l) &&& 0xc0 = 0x40 := by
  have h64 : ∀ x : Fin 64,
      (0x40 + x.val) &&& 0x3f = x.val ∧ (0x40 + x.val) &&& 0xc0 = 0x40 := by
    decide
  exact h64 ⟨l, h⟩

lemma mask_grad {l : Nat} (h : l < 64) :
    (0x80 + l) &&& 0x3f = l ∧ (0x80 + l) &&& 0xc0 = 0x80 := by
  have h64 : ∀ x : Fin 64,
      (0x80 + x.val) &&& 0x3f = x.val ∧ (0x80 + x.val) &&& 0xc0 = 0x80 := by
    decide
  exact h64 ⟨l, h⟩

lemma encRun_length (r : LRun) : (encRun r).length = encLen r := by
  cases r <;> rfl

lemma encRun_head (r : LRun) : (encRun r)[0]? = some (opByte r) := by
  cases r <;> rfl

lemma encLen_pos (r : LRun) : 0 < encLen r := by
  cases r <;> simp [encLen]

lemma opByte_ne_end {r : LRun} (h : runField r < 64) : opByte r ≠ 0xc0 := by
  cases r <;> simp only [opByte, runField] at h ⊢ <;> omega

lemma encProg_cons (r : LRun) (rs : List LRun) :
    encProg (r :: rs) = encRun r ++ encProg rs := by
  simp [encProg, encRuns, List.append_assoc]

lemma off_succ : ∀ (rs : List LRun) (j : Nat) (r : LRun), rs[j]? = some r →
    off rs (j + 1) = off rs j + encLen r := by
  intro rs
  induction rs with
  | nil => intro j r h; simp at h
  | cons a t ih =>
    intro j r h
    cases j with
    | zero =>
      simp only [List.getElem?_cons_zero, Option.some.injEq] at h
      subst h
      simp [off]
    | succ j =>
      have h2 : t[j]? = some r := by simpa using h
      simp only [off]
      rw [ih j r h2]
      omega

lemma off_end (rs : List LRun) : off rs rs.length = (encRuns rs).length := by
  induction rs with
  | nil => rfl
  | cons a t ih =>
    simp only [List.length_cons, off, encRuns, List.length_append,
      encRun_length, ih]

lemma encProg_get : ∀ (rs : List LRun) (j : Nat) (r : LRun), rs[j]? = some r →
    ∀ k, k < encLen r → (encProg rs)[off rs j + k]? = (encRun r)[k]? := by
  intro rs
  induction rs with
  | nil => intro j r h; simp at h
  | cons a t ih =>
    intro j r h k hk
    cases j with
    | zero =>
      simp only [List.getElem?_cons_zero, Option.some.injEq] at h
      subst h
      rw [encProg_cons]
      have hlen : k < (encRun a).length := by rw [encRun_length]; exact hk
      have hoff : off (a :: t) 0 + k = k := by simp [off]
      rw [hoff, List.getElem?_append, if_pos hlen]
    | succ j =>
      have h2 : t[j]? = some r := by simpa using h
      rw [encProg_cons]
      have hoff : off (a :: t) (j + 1) + k = encLen a + (off t j + k) := by
        simp only [off]; omega
      rw [hoff, List.getElem?_append,
        if_neg (by rw [encRun_length]; omega)]
      have hsub : encLen a + (off t j + k) - (encRun a).length = off t j + k := by
        rw [encRun_length]; omega
      rw [hsub]
      exact ih j r h2 k hk

lemma encProg_end (rs : List LRun) :
    (encProg rs)[off rs rs.length]? = some 0xc0 := by
  rw [off_end]
  unfold encProg
  rw [List.getElem?_append, if_neg (by omega)]
  simp

/-! ## Decoding a run at its offset -/

lemma decodeOp_run {rs : List LRun} {j : Nat} {r : LRun} (pal : Nat → Nat)
    (st : LEDSTRING) (h : rs[j]? = some r) (hf : runField r < 64) :
    decodeOp (encProg rs) pal st (opByte r) (off rs j + 1) =
      some (applyRun pal r st (off rs (j + 1))) := by
  have hoff := off_succ rs j r h
  cases r with
  | gap l =>
    have hm := mask_gap (show l < 64 from hf)
    rw [hoff]
    simp [decodeOp, opByte, hm.1, hm.2, applyRun, encLen]
  | solid l i =>
    have hm := mask_solid (show l < 64 from hf)
    have hidx : (encProg rs)[off rs j + 1]? = some i := by
      have h1 := encProg_get rs j _ h 1 (by simp [encLen])
      simpa [encRun] using h1
    rw [hoff]
    simp [decodeOp, opByte, hm.1, hm.2, applyRun, encLen, hidx]
  | grad l i d1 d2 d3 =>
    have hm := mask_grad (show l < 64 from hf)
    have hidx : (encProg rs)[off rs j + 1]? = some i := by
      have h1 := encProg_get rs j _ h 1 (by simp [encLen])
      simpa [encRun] using h1
    have hd1 : (encProg rs)[off rs j + 1 + 1]? = some d1 := by
      have h1 := encProg_get rs j _ h 2 (by simp [encLen])
      have e : off rs j + 1 + 1 = off rs j + 2 := by omega
      rw [e]
      simpa [encRun] using h1
    have hd2 : (encProg rs)[off rs j + 1 + 2]? = some d2 := by
      have h1 := encProg_get rs j _ h 3 (by simp [encLen])
      have e : off rs j + 1 + 2 = off rs j + 3 := by omega
      rw [e]
      simpa [encRun] using h1
    have hd3 : (encProg rs)[off rs j + 1 + 3]? = some d3 := by
      have h1 := encProg_get rs j _ h 4 (by simp [encLen])
      have e : off rs j + 1 + 3 = off rs j + 4 := by omega
      rw [e]
      simpa [encRun] using h1
    rw [hoff]
    simp [decodeOp, opByte, hm.1, hm.2, applyRun, encLen, hidx, hd1, hd2, hd3]

/-- Stepping a state whose run is exhausted, with the cursor at the start of
run `j`, decodes exactly run `j`. -/
lemma LEDStepOnce_decode {rs : List LRun} {j : Nat} {r : LRun} (pal : Nat → Nat)
    {st : LEDSTRING} (h : rs[j]? = some r) (hf : runField r < 64)
    (hC : st.iCount = 0) (hP : st.pRLE = off rs j) :
    LEDStepOnce (encProg rs) pal st =
      some (applyRun pal r st (off rs (j + 1))) := by
  have hop : (encProg rs)[off rs j]? = some (opByte r) := by
    have h0 := encProg_get rs j r h 0 (encLen_pos r)
    rw [Nat.add_zero, encRun_head] at h0
    exact h0
  unfold LEDStepOnce
  rw [if_neg (by omega), hP, hop]
  simp only
  rw [if_neg (opByte_ne_end hf)]
  exact decodeOp_run pal st h hf

/-- Stepping a state whose run is exhausted, with the cursor at the END
sentinel, restarts at the program start and decodes run 0. -/
lemma LEDStepOnce_wrap {rs : List LRun} {r0 : LRun} (pal : Nat → Nat)
    {st : LEDSTRING} (h0 : rs[0]? = some r0) (hf : runField r0 < 64)
    (hC : st.iCount = 0) (hP : st.pRLE = off rs rs.length) :
    LEDStepOnce (encProg rs) pal st =
      some (applyRun pal r0 st (off rs 1)) := by
  have hop : (encProg rs)[0]? = some (opByte r0) := by
    have h1 := encProg_get rs 0 r0 h0 0 (encLen_pos r0)
    have e : off rs 0 + 0 = 0 := by simp [off]
    rw [e, encRun_head] at h1
    exact h1
  unfold LEDStepOnce
  rw [if_neg (by omega), hP, encProg_end rs]
  simp only [hop, if_pos rfl]
  have hd := decodeOp_run pal st h0 hf
  rw [show off rs 0 + 1 = 1 from by simp [off],
    show (0 : Nat) + 1 = 1 from rfl] at hd
  exact hd

/-- `LEDInit` on a well-formed program decodes run 0 on the zeroed state. -/
lemma LEDInit_encProg {rs : List LRun} {r0 : LRun} (pal : Nat → Nat) (N : Nat)
    (h0 : rs[0]? = some r0) (hf : runField r0 < 64) :
    LEDInit (encProg rs) pal N =
      some (applyRun pal r0 (zeroState N) (off rs 1)) := by
  have hop : (encProg rs)[0]? = some (opByte r0) := by
    have h1 := encProg_get rs 0 r0 h0 0 (encLen_pos r0)
    have e : off rs 0 + 0 = 0 := by simp [off]
    rw [e, encRun_head] at h1
    exact h1
  unfold LEDInit
  rw [hop]
  have hd := decodeOp_run pal (zeroState N) h0 hf
  rw [show off rs 0 + 1 = 1 from by simp [off],
    show (0 : Nat) + 1 = 1 from rfl] at hd
  exact hd

/-! ## Composing steps and running out a run's count -/

lemma LEDStep_add (p : List Nat) (pal : Nat → Nat) :
    ∀ (a b : Nat) (st : LEDSTRING),
    LEDStep p pal (a + b) st = (LEDStep p pal a st).bind (LEDStep p pal b) := by
  intro a
  induction a with
  | zero => intro b st; simp [LEDStep]
  | succ a ih =>
    intro b st
    have e : a + 1 + b = (a + b) + 1 := by omega
    rw [e]
    simp only [LEDStep]
    cases h : LEDStepOnce p pal st with
    | none => simp
    | some st1 => simp [ih b st1]

/-- Continuation steps of a non-GRADIENT run decrement the count and change
nothing else. -/
lemma LEDStep_cont_other (p : List Nat) (pal : Nat → Nat) :
    ∀ (m : Nat) (st : LEDSTRING), st.lastOP ≠ 0x80 → m ≤ st.iCount →
    LEDStep p pal m st = some { st with iCount := st.iCount - m } := by
  intro m
  induction m with
  | zero => intro st h1 h2; rfl
  | succ m ih =>
    intro st h1 h2
    have hstep : LEDStepOnce p pal st = some { st with iCount := st.iCount - 1 } := by
      unfold LEDStepOnce
      rw [if_pos (by omega), if_neg h1]
    simp only [LEDStep, hstep, Option.some_bind]
    rw [ih { st with iCount := st.iCount - 1 } h1 (by simp; omega)]
    have e : st.iCount - 1 - m = st.iCount - (m + 1) := by omega
    simp only [e]

/-- Continuation steps of a GRADIENT run add the deltas (mod 256) once per
step and decrement the count. -/
lemma LEDStep_cont_grad (p : List Nat) (pal : Nat → Nat) :
    ∀ (m : Nat) (st : LEDSTRING), st.lastOP = 0x80 → m ≤ st.iCount →
    st.r < 256 → st.g < 256 → st.b < 256 →
    LEDStep p pal m st = some { st with
      iCount := st.iCount - m,
      r := (st.r + m * st.dr) % 256, g := (st.g + m * st.dg) % 256,
      b := (st.b + m * st.db) % 256 } := by
  intro m
  induction m with
  | zero =>
    intro st h1 h2 hr hg hb
    have er : (st.r + 0 * st.dr) % 256 = st.r := by
      simp [Nat.mod_eq_of_lt hr]
    have eg : (st.g + 0 * st.dg) % 256 = st.g := by
      simp [Nat.mod_eq_of_lt hg]
    have ebl : (st.b + 0 * st.db) % 256 = st.b := by
      simp [Nat.mod_eq_of_lt hb]
    simp only [LEDStep, er, eg, ebl, Nat.sub_zero]
  | succ m ih =>
    intro st h1 h2 hr hg hb
    have hstep : LEDStepOnce p pal st = some { st with
        r := (st.r + st.dr) % 256, g := (st.g + st.dg) % 256,
        b := (st.b + st.db) % 256, iCount := st.iCount - 1 } := by
      unfold LEDStepOnce
      rw [if_pos (by omega), if_pos h1]
    simp only [LEDStep, hstep, Option.some_bind]
    rw [ih _ (by simp [h1]) (by simp; omega)
      (Nat.mod_lt _ (by omega)) (Nat.mod_lt _ (by omega)) (Nat.mod_lt _ (by omega))]
    have ec : st.iCount - 1 - m = st.iCount - (m + 1) := by omega
    have er : ((st.r + st.dr) % 256 + m * st.dr) % 256
        = (st.r + (m + 1) * st.dr) % 256 := by
      rw [Nat.mod_add_mod, Nat.succ_mul]
      congr 1
      omega
    have eg : ((st.g + st.dg) % 256 + m * st.dg) % 256
        = (st.g + (m + 1) * st.dg) % 256 := by
      rw [Nat.mod_add_mod, Nat.succ_mul]
      congr 1
      omega
    have ebl : ((st.b + st.db) % 256 + m * st.db) % 256
        = (st.b + (m + 1) * st.db) % 256 := by
      rw [Nat.mod_add_mod, Nat.succ_mul]
      congr 1
      omega
    simp only [ec, er, eg, ebl]

/-! ## Field facts about decoded-run states -/

lemma applyRun_iCount (pal : Nat → Nat) (r : LRun) (st : LEDSTRING) (c : Nat) :
    (applyRun pal r st c).iCount = runField r := by cases r <;> rfl

lemma applyRun_lastOP (pal : Nat → Nat) (r : LRun) (st : LEDSTRING) (c : Nat) :
    (applyRun pal r st c).lastOP = runMode r := by cases r <;> rfl

lemma applyRun_pRLE (pal : Nat → Nat) (r : LRun) (st : LEDSTRING) (c : Nat) :
    (applyRun pal r st c).pRLE = c := by cases r <;> rfl

lemma applyRun_iLen (pal : Nat → Nat) (r : LRun) (st : LEDSTRING) (c : Nat) :
    (applyRun pal r st c).iLen = st.iLen := by cases r <;> rfl

lemma applyRun_iDir (pal : Nat → Nat) (r : LRun) (st : LEDSTRING) (c : Nat) :
    (applyRun pal r st c).iDir = st.iDir := by cases r <;> rfl

lemma applyRun_sr (pal : Nat → Nat) (r : LRun) (st : LEDSTRING) (c : Nat) :
    (applyRun pal r st c).sr = st.sr := by cases r <;> rfl

lemma applyRun_sg (pal : Nat → Nat) (r : LRun) (st : LEDSTRING) (c : Nat) :
    (applyRun pal r st c).sg = st.sg := by cases r <;> rfl

lemma applyRun_sb (pal : Nat → Nat) (r : LRun) (st : LEDSTRING) (c : Nat) :
    (applyRun pal r st c).sb = st.sb := by cases r <;> rfl

lemma applyRun_er (pal : Nat → Nat) (r : LRun) (st : LEDSTRING) (c : Nat) :
    (applyRun pal r st c).er = st.er := by cases r <;> rfl

lemma applyRun_eg (pal : Nat → Nat) (r : LRun) (st : LEDSTRING) (c : Nat) :
    (applyRun pal r st c).eg = st.eg := by cases r <;> rfl

lemma applyRun_eb (pal : Nat → Nat) (r : LRun) (st : LEDSTRING) (c : Nat) :
    (applyRun pal r st c).eb = st.eb := by cases r <;> rfl

/-- Delta triple carried in the state. -/
def deltas (st : LEDSTRING) : Nat × Nat × Nat := (st.dr, st.dg, st.db)

/-- Overwrite just the delta bytes of a state. -/
def setDeltas (st : LEDSTRING) (D : Nat × Nat × Nat) : LEDSTRING :=
  { st with dr := D.1, dg := D.2.1, db := D.2.2 }

lemma applyRun_deltas (pal : Nat → Nat) (r : LRun) (st : LEDSTRING) (c : Nat) :
    deltas (applyRun pal r st c) = updDelta (deltas st) r := by
  cases r <;> rfl

lemma applyRun_colors_lt (pal : Nat → Nat) (r : LRun) (st : LEDSTRING) (c : Nat) :
    (applyRun pal r st c).r < 256 ∧ (applyRun pal r st c).g < 256 ∧
    (applyRun pal r st c).b < 256 := by
  cases r with
  | gap l => refine ⟨?_, ?_, ?_⟩ <;> simp [applyRun]
  | solid l i =>
      exact ⟨Nat.mod_lt _ (by omega), Nat.mod_lt _ (by omega),
        Nat.mod_lt _ (by omega)⟩
  | grad l i d1 d2 d3 =>
      exact ⟨Nat.mod_lt _ (by omega), Nat.mod_lt _ (by omega),
        Nat.mod_lt _ (by omega)⟩

/-- `applyRun` reads its base state only through the fields it does not
overwrite, and `setDeltas` fixes the delta bytes, so two bases agreeing on
the remaining carried fields decode identically. -/
lemma applyRun_setDeltas_eq (pal : Nat → Nat) (r : LRun) (c : Nat)
    (s t : LEDSTRING) (D : Nat × Nat × Nat)
    (h1 : s.iLen = t.iLen) (h2 : s.iDir = t.iDir)
    (h3 : s.sr = t.sr) (h4 : s.sg = t.sg) (h5 : s.sb = t.sb)
    (h6 : s.er = t.er) (h7 : s.eg = t.eg) (h8 : s.eb = t.eb) :
    applyRun pal r (setDeltas s D) c = applyRun pal r (setDeltas t D) c := by
  cases r <;>
    simp only [applyRun, setDeltas, h1, h2, h3, h4, h5, h6, h7, h8]

lemma LEDStep_one (p : List Nat) (pal : Nat → Nat) (st st1 : LEDSTRING)
    (h : LEDStepOnce p pal st = some st1) :
    LEDStep p pal 1 st = some st1 := by
  simp [LEDStep, h]

/-- Walking the tail of a pass: from the state just after decoding run `r`
(the runs before it listed in `pre`, the runs after it in `suf`), emitting
the remaining `runField r + 1` pixels of `r` and the `sumLen suf` pixels of
the runs after it lands exactly on the state just after re-decoding run 0
at the restart, with the delta bytes updated by the GRADIENT runs passed on
the way and every other carried field untouched. -/
lemma walk_suffix (pal : Nat → Nat) (rs : List LRun)
    (hwf : ∀ r ∈ rs, runWF r) (r0 : LRun) (h0 : rs[0]? = some r0) :
    ∀ (suf pre : List LRun) (r : LRun), rs = pre ++ r :: suf →
    ∀ (st : LEDSTRING), st.iCount = runField r → st.lastOP = runMode r →
    st.pRLE = off rs (pre.length + 1) →
    st.r < 256 → st.g < 256 → st.b < 256 →
    LEDStep (encProg rs) pal (runField r + 1 + sumLen suf) st =
      some (applyRun pal r0 (setDeltas st (deltaAfter (deltas st) suf))
        (off rs 1)) := by
  have hf0 : runField r0 < 64 := (hwf r0 (List.getElem?_mem h0)).1
  intro suf
  induction suf with
  | nil =>
    intro pre r hsplit st hC hOP hP hr hg hb
    have hmem : r ∈ rs := by rw [hsplit]; simp
    have hf : runField r < 64 := (hwf r hmem).1
    have hlen : pre.length + 1 = rs.length := by rw [hsplit]; simp
    have hP2 : st.pRLE = off rs rs.length := by rw [hP, hlen]
    have ec : runField r + 1 + sumLen ([] : List LRun) = runField r + 1 := by
      simp [sumLen]
    rw [ec, LEDStep_add]
    by_cases hgr : st.lastOP = 0x80
    · rw [LEDStep_cont_grad (encProg rs) pal (runField r) st hgr (by omega)
        hr hg hb]
      simp only [Option.some_bind]
      rw [LEDStep_one _ _ _ _ (LEDStepOnce_wrap pal h0 hf0
        (by show st.iCount - runField r = 0; omega)
        (by show st.pRLE = off rs rs.length; exact hP2))]
      exact congrArg some (applyRun_setDeltas_eq pal r0 (off rs 1) _ st
        (deltas st) rfl rfl rfl rfl rfl rfl rfl rfl)
    · rw [LEDStep_cont_other (encProg rs) pal (runField r) st hgr (by omega)]
      simp only [Option.some_bind]
      rw [LEDStep_one _ _ _ _ (LEDStepOnce_wrap pal h0 hf0
        (by show st.iCount - runField r = 0; omega)
        (by show st.pRLE = off rs rs.length; exact hP2))]
      exact congrArg some (applyRun_setDeltas_eq pal r0 (off rs 1) _ st
        (deltas st) rfl rfl rfl rfl rfl rfl rfl rfl)
  | cons r2 suf ih =>
    intro pre r hsplit st hC hOP hP hr hg hb
    have hmem : r ∈ rs := by rw [hsplit]; simp
    have hf : runField r < 64 := (hwf r hmem).1
    have hmem2 : r2 ∈ rs := by rw [hsplit]; simp
    have hf2 : runField r2 < 64 := (hwf r2 hmem2).1
    have hget2 : rs[pre.length + 1]? = some r2 := by
      rw [hsplit, List.getElem?_append, if_neg (by omega)]
      have e : pre.length + 1 - pre.length = 1 := by omega
      rw [e]
      simp
    have esplit2 : rs = (pre ++ [r]) ++ r2 :: suf := by rw [hsplit]; simp
    have ecount : runField r + 1 + sumLen (r2 :: suf)
        = runField r + (1 + (runField r2 + 1 + sumLen suf)) := by
      simp [sumLen]; omega
    rw [ecount, LEDStep_add]
    by_cases hgr : st.lastOP = 0x80
    · rw [LEDStep_cont_grad (encProg rs) pal (runField r) st hgr (by omega)
        hr hg hb]
      simp only [Option.some_bind]
      rw [LEDStep_add]
      rw [LEDStep_one _ _ _ _ (LEDStepOnce_decode pal hget2 hf2
        (by show st.iCount - runField r = 0; omega)
        (by show st.pRLE = off rs (pre.length + 1); exact hP))]
      simp only [Option.some_bind]
      rw [ih (pre ++ [r]) r2 esplit2 _
        (by rw [applyRun_iCount]) (by rw [applyRun_lastOP])
        (by rw [applyRun_pRLE]; congr 2; simp)
        (applyRun_colors_lt pal r2 _ _).1
        (applyRun_colors_lt pal r2 _ _).2.1
        (applyRun_colors_lt pal r2 _ _).2.2]
      have hX : deltaAfter
          (deltas (applyRun pal r2 { st with
            iCount := st.iCount - runField r,
            r := (st.r + runField r * st.dr) % 256,
            g := (st.g + runField r * st.dg) % 256,
            b := (st.b + runField r * st.db) % 256 }
            (off rs (pre.length + 1 + 1)))) suf
          = deltaAfter (deltas st) (r2 :: suf) := by
        rw [applyRun_deltas]
        rfl
      rw [hX]
      exact congrArg some (applyRun_setDeltas_eq pal r0 (off rs 1) _ st _
        (by rw [applyRun_iLen]) (by rw [applyRun_iDir])
        (by rw [applyRun_sr]) (by rw [applyRun_sg]) (by rw [applyRun_sb])
        (by rw [applyRun_er]) (by rw [applyRun_eg]) (by rw [applyRun_eb]))
    · rw [LEDStep_cont_other (encProg rs) pal (runField r) st hgr (by omega)]
      simp only [Option.some_bind]
      rw [LEDStep_add]
      rw [LEDStep_one _ _ _ _ (LEDStepOnce_decode pal hget2 hf2
        (by show st.iCount - runField r = 0; omega)
        (by show st.pRLE = off rs (pre.length + 1); exact hP))]
      simp only [Option.some_bind]
      rw [ih (pre ++ [r]) r2 esplit2 _
        (by rw [applyRun_iCount]) (by rw [applyRun_lastOP])
        (by rw [applyRun_pRLE]; congr 2; simp)
        (applyRun_colors_lt pal r2 _ _).1
        (applyRun_colors_lt pal r2 _ _).2.1
        (applyRun_colors_lt pal r2 _ _).2.2]
      have hX : deltaAfter
          (deltas (applyRun pal r2 { st with iCount := st.iCount - runField r }
            (off rs (pre.length + 1 + 1)))) suf
          = deltaAfter (deltas st) (r2 :: suf) := by
        rw [applyRun_deltas]
        rfl
      rw [hX]
      exact congrArg some (applyRun_setDeltas_eq pal r0 (off rs 1) _ st _
        (by rw [applyRun_iLen]) (by rw [applyRun_iDir])
        (by rw [applyRun_sr]) (by rw [applyRun_sg]) (by rw [applyRun_sb])
        (by rw [applyRun_er]) (by rw [applyRun_eg]) (by rw [applyRun_eb]))

/-! ## Safety invariant: the cursor always sits at a run boundary -/

/-- Decoder invariant for a program `encProg rs`: the cursor sits just past
some run `j` of the program, and the remaining count fits in 6 bits. -/
def InvP (rs : List LRun) (st : LEDSTRING) : Prop :=
  (∃ j, j < rs.length ∧ st.pRLE = off rs (j + 1)) ∧ st.iCount < 64

lemma exists_head {rs : List LRun} (hne : rs ≠ []) :
    ∃ r0, rs[0]? = some r0 := by
  cases rs with
  | nil => exact absurd rfl hne
  | cons a t => exact ⟨a, by simp⟩

lemma inv_step (rs : List LRun) (pal : Nat → Nat)
    (hwf : ∀ r ∈ rs, runWF r) (hne : rs ≠ []) (st : LEDSTRING)
    (h : InvP rs st) :
    ∃ st1, LEDStepOnce (encProg rs) pal st = some st1 ∧ InvP rs st1 ∧
      (0 < st.iCount → st1.iCount = st.iCount - 1) ∧
      (st.iCount = 0 → st1.iCount < 64) := by
  obtain ⟨⟨j, hj, hP⟩, hcnt⟩ := h
  by_cases hpos : 0 < st.iCount
  · by_cases hgr : st.lastOP = 0x80
    · have hstep : LEDStepOnce (encProg rs) pal st = some { st with
          r := (st.r + st.dr) % 256, g := (st.g + st.dg) % 256,
          b := (st.b + st.db) % 256, iCount := st.iCount - 1 } := by
        unfold LEDStepOnce
        rw [if_pos hpos, if_pos hgr]
      refine ⟨_, hstep, ⟨⟨j, hj, ?_⟩, ?_⟩, ?_, ?_⟩
      · show st.pRLE = off rs (j + 1)
        exact hP
      · show st.iCount - 1 < 64
        omega
      · intro _
        show st.iCount - 1 = st.iCount - 1
        rfl
      · intro h0
        omega
    · have hstep : LEDStepOnce (encProg rs) pal st
          = some { st with iCount := st.iCount - 1 } := by
        unfold LEDStepOnce
        rw [if_pos hpos, if_neg hgr]
      refine ⟨_, hstep, ⟨⟨j, hj, ?_⟩, ?_⟩, ?_, ?_⟩
      · show st.pRLE = off rs (j + 1)
        exact hP
      · show st.iCount - 1 < 64
        omega
      · intro _
        rfl
      · intro h0
        omega
  · have hC0 : st.iCount = 0 := by omega
    by_cases hlt : j + 1 < rs.length
    · have hr2 : ∃ r2, rs[j + 1]? = some r2 := by
        rw [List.getElem?_eq_getElem hlt]
        exact ⟨_, rfl⟩
      obtain ⟨r2, hr2⟩ := hr2
      have hf2 : runField r2 < 64 := (hwf r2 (List.getElem?_mem hr2)).1
      refine ⟨_, LEDStepOnce_decode pal hr2 hf2 hC0 hP, ⟨⟨j + 1, hlt, ?_⟩, ?_⟩,
        ?_, ?_⟩
      · rw [applyRun_pRLE]
      · rw [applyRun_iCount]
        exact hf2
      · intro hx
        omega
      · intro _
        rw [applyRun_iCount]
        exact hf2
    · have hend : j + 1 = rs.length := by omega
      obtain ⟨r0, hr0⟩ := exists_head hne
      have hf0 : runField r0 < 64 := (hwf r0 (List.getElem?_mem hr0)).1
      have hP2 : st.pRLE = off rs rs.length := by rw [hP, hend]
      refine ⟨_, LEDStepOnce_wrap pal hr0 hf0 hC0 hP2,
        ⟨⟨0, by omega, ?_⟩, ?_⟩, ?_, ?_⟩
      · rw [applyRun_pRLE]
      · rw [applyRun_iCount]
        exact hf0
      · intro hx
        omega
      · intro _
        rw [applyRun_iCount]
        exact hf0

lemma inv_stepN (rs : List LRun) (pal : Nat → Nat)
    (hwf : ∀ r ∈ rs, runWF r) (hne : rs ≠ []) :
    ∀ (k : Nat) (st : LEDSTRING), InvP rs st →
    ∃ t, LEDStep (encProg rs) pal k st = some t ∧ InvP rs t := by
  intro k
  induction k with
  | zero => intro st h; exact ⟨st, rfl, h⟩
  | succ k ih =>
    intro st h
    obtain ⟨st1, hs, h1, _, _⟩ := inv_step rs pal hwf hne st h
    obtain ⟨t, ht, hInv⟩ := ih st1 h1
    refine ⟨t, ?_, hInv⟩
    simp only [LEDStep, hs, Option.some_bind]
    exact ht

lemma InvP_init (rs : List LRun) (pal : Nat → Nat) (N : Nat)
    (hwf : ∀ r ∈ rs, runWF r) (hne : rs ≠ []) {r0 : LRun}
    (hr0 : rs[0]? = some r0) :
    InvP rs (applyRun pal r0 (zeroState N) (off rs 1)) := by
  have hf0 : runField r0 < 64 := (hwf r0 (List.getElem?_mem hr0)).1
  refine ⟨⟨0, ?_, ?_⟩, ?_⟩
  · cases rs with
    | nil => simp at hr0
    | cons a t => simp
  · rw [applyRun_pRLE]
  · rw [applyRun_iCount]
    exact hf0

/-! ## The delta bytes are dead state outside GRADIENT runs -/

lemma setDeltas_self (s : LEDSTRING) : setDeltas s (deltas s) = s := rfl

/-- Reduction of one step when the fetched opcode byte is not the END
sentinel. -/
lemma LEDStepOnce_fetch (p : List Nat) (pal : Nat → Nat) (st : LEDSTRING)
    (b0 : Nat) (hC : st.iCount = 0) (hfetch : p[st.pRLE]? = some b0)
    (hne : b0 ≠ 0xc0) :
    LEDStepOnce p pal st = decodeOp p pal st b0 (st.pRLE + 1) := by
  unfold LEDStepOnce
  rw [if_neg (by omega), hfetch]
  dsimp only
  rw [if_neg hne]

/-- Reduction of one step when the fetched opcode byte is the END sentinel:
restart and decode the byte at the program start. -/
lemma LEDStepOnce_fetch_end (p : List Nat) (pal : Nat → Nat) (st : LEDSTRING)
    (b0 b1 : Nat) (hC : st.iCount = 0) (hfetch : p[st.pRLE]? = some b0)
    (hend : b0 = 0xc0) (hf0 : p[0]? = some b1) :
    LEDStepOnce p pal st = decodeOp p pal st b1 1 := by
  unfold LEDStepOnce
  rw [if_neg (by omega), hfetch]
  dsimp only
  rw [if_pos hend, hf0]

/-- Decoding is insensitive to the incoming delta bytes: decoding from a
state with overwritten deltas yields the same state with the deltas either
still overwritten (non-GRADIENT) or freshly loaded (GRADIENT). -/
lemma decodeOp_setDeltas (p : List Nat) (pal : Nat → Nat) (s : LEDSTRING)
    (D : Nat × Nat × Nat) (bOp c : Nat) (s1 : LEDSTRING)
    (h : decodeOp p pal s bOp c = some s1) :
    decodeOp p pal (setDeltas s D) bOp c =
      some (setDeltas s1 (if s1.lastOP = 0x80 then deltas s1 else D)) := by
  unfold decodeOp at h ⊢
  by_cases h1 : bOp &&& 0xc0 = 0
  · rw [if_pos h1] at h ⊢
    injection h with h2
    subst h2
    dsimp only
    rw [if_neg (show ¬ (bOp &&& 0xc0) = 0x80 by rw [h1]; omega)]
    rfl
  · rw [if_neg h1] at h ⊢
    by_cases h2 : bOp &&& 0xc0 = 0x40
    · rw [if_pos h2] at h ⊢
      cases hcc : p[c]? with
      | none => rw [hcc] at h; exact absurd h (by simp)
      | some idx =>
        rw [hcc] at h
        dsimp only at h ⊢
        injection h with h3
        subst h3
        dsimp only
        rw [if_neg (show ¬ (bOp &&& 0xc0) = 0x80 by rw [h2]; omega)]
        rfl
    · rw [if_neg h2] at h ⊢
      by_cases h3 : bOp &&& 0xc0 = 0x80
      · rw [if_pos h3] at h ⊢
        cases hc1 : p[c]? with
        | none => rw [hc1] at h; dsimp only at h; exact absurd h (by simp)
        | some idx =>
          cases hc2 : p[c + 1]? with
          | none =>
            rw [hc1, hc2] at h
            dsimp only at h
            exact absurd h (by simp)
          | some d1 =>
            cases hc3 : p[c + 2]? with
            | none =>
              rw [hc1, hc2, hc3] at h
              dsimp only at h
              exact absurd h (by simp)
            | some d2 =>
              cases hc4 : p[c + 3]? with
              | none =>
                rw [hc1, hc2, hc3, hc4] at h
                dsimp only at h
                exact absurd h (by simp)
              | some d3 =>
                rw [hc1, hc2, hc3, hc4] at h
                dsimp only at h ⊢
                injection h with h4
                subst h4
                dsimp only
                rw [if_pos (show (bOp &&& 0xc0) = 0x80 from h3)]
                rfl
      · rw [if_neg h3] at h ⊢
        injection h with h4
        subst h4
        dsimp only
        rw [if_neg (show ¬ (bOp &&& 0xc0) = 0x80 from h3)]
        rfl

/-- One step is insensitive to overwritten delta bytes unless the current
run is a GRADIENT, in which case the hypothesis pins them. -/
lemma LEDStepOnce_setDeltas (p : List Nat) (pal : Nat → Nat) (s : LEDSTRING)
    (D : Nat × Nat × Nat) (hgr : s.lastOP = 0x80 → D = deltas s)
    (s1 : LEDSTRING) (h : LEDStepOnce p pal s = some s1) :
    LEDStepOnce p pal (setDeltas s D) =
      some (setDeltas s1 (if s1.lastOP = 0x80 then deltas s1 else D)) := by
  by_cases hpos : 0 < s.iCount
  · by_cases hg : s.lastOP = 0x80
    · have hDs : D = deltas s := hgr hg
      have hs1 : s1.lastOP = 0x80 := by
        unfold LEDStepOnce at h
        rw [if_pos hpos, if_pos hg] at h
        injection h with h2
        rw [← h2]
        exact hg
      rw [hDs, setDeltas_self, h, if_pos hs1, setDeltas_self]
    · have hstep : LEDStepOnce p pal s
          = some { s with iCount := s.iCount - 1 } := by
        unfold LEDStepOnce
        rw [if_pos hpos, if_neg hg]
      rw [hstep] at h
      injection h with h2
      subst h2
      have hstep2 : LEDStepOnce p pal (setDeltas s D)
          = some { setDeltas s D with iCount := s.iCount - 1 } := by
        unfold LEDStepOnce
        rw [if_pos (show 0 < (setDeltas s D).iCount from hpos),
          if_neg (show ¬ (setDeltas s D).lastOP = 0x80 from hg)]
        rfl
      rw [hstep2]
      dsimp only
      rw [if_neg (show ¬ s.lastOP = 0x80 from hg)]
      rfl
  · have hC0 : s.iCount = 0 := by omega
    cases hfetch : p[s.pRLE]? with
    | none =>
      have hnone : LEDStepOnce p pal s = none := by
        unfold LEDStepOnce
        rw [if_neg hpos, hfetch]
      rw [hnone] at h
      exact absurd h (by simp)
    | some b0 =>
      by_cases hend : b0 = 0xc0
      · cases hf0 : p[0]? with
        | none =>
          have hnone : LEDStepOnce p pal s = none := by
            unfold LEDStepOnce
            rw [if_neg hpos, hfetch]
            dsimp only
            rw [if_pos hend, hf0]
          rw [hnone] at h
          exact absurd h (by simp)
        | some b1 =>
          rw [LEDStepOnce_fetch_end p pal s b0 b1 hC0 hfetch hend hf0] at h
          rw [LEDStepOnce_fetch_end p pal (setDeltas s D) b0 b1
            (show (setDeltas s D).iCount = 0 from hC0)
            (show p[(setDeltas s D).pRLE]? = some b0 from hfetch) hend hf0]
          exact decodeOp_setDeltas p pal s D b1 1 s1 h
      · rw [LEDStepOnce_fetch p pal s b0 hC0 hfetch hend] at h
        rw [LEDStepOnce_fetch p pal (setDeltas s D) b0
          (show (setDeltas s D).iCount = 0 from hC0)
          (show p[(setDeltas s D).pRLE]? = some b0 from hfetch) hend]
        exact decodeOp_setDeltas p pal s D b0 (s.pRLE + 1) s1 h

/-- Iterated version of the previous lemma: overwriting the delta bytes at
a point where the current run is not a GRADIENT never changes the emitted
colors, because only a GRADIENT continuation reads them and any GRADIENT
decode reloads them first. -/
lemma LEDStep_setDeltas (p : List Nat) (pal : Nat → Nat) :
    ∀ (k : Nat) (s : LEDSTRING) (D : Nat × Nat × Nat),
    (s.lastOP = 0x80 → D = deltas s) → ∀ s1, LEDStep p pal k s = some s1 →
    ∃ D1, (s1.lastOP = 0x80 → D1 = deltas s1) ∧
      LEDStep p pal k (setDeltas s D) = some (setDeltas s1 D1) := by
  intro k
  induction k with
  | zero =>
    intro s D hgr s1 h
    injection h with h'
    subst h'
    exact ⟨D, hgr, rfl⟩
  | succ k ih =>
    intro s D hgr s1 h
    simp only [LEDStep] at h
    cases hmid : LEDStepOnce p pal s with
    | none => rw [hmid] at h; exact absurd h (by simp)
    | some mid =>
      rw [hmid, Option.some_bind] at h
      have hone := LEDStepOnce_setDeltas p pal s D hgr mid hmid
      have hinv : mid.lastOP = 0x80 →
          (if mid.lastOP = 0x80 then deltas mid else D) = deltas mid := by
        intro hx
        rw [if_pos hx]
      obtain ⟨D1, hD1, hrest⟩ := ih mid _ hinv s1 h
      refine ⟨D1, hD1, ?_⟩
      simp only [LEDStep, hone, Option.some_bind]
      exact hrest

/-! ## Claim theorems -/

/-- C1: decoding a GRADIENT opcode with length field `f` (run length
`f + 1`), palette index `i` and per-channel delta bytes `d1`, `d2`, `d3`
makes the k-th emitted color of the run (0-indexed from the pixel at which
the opcode was decoded, i.e. the state right after the decoding Advance)
equal to `Palette[i] + k*d` per channel, modulo 256 with 8-bit wraparound
and no clamping, for every `k` less than the run length.  The delta byte is
the two's-complement pattern of the signed delta, so `+ k*d (mod 256)`
coincides with adding the signed delta `k` times. -/
theorem C1_gradient_run (p : List Nat) (pal : Nat → Nat) (st : LEDSTRING)
    (f i d1 d2 d3 : Nat) (hf : f < 64) (hC : st.iCount = 0)
    (h0 : p[st.pRLE]? = some (0x80 + f))
    (h1 : p[st.pRLE + 1]? = some i) (h2 : p[st.pRLE + 2]? = some d1)
    (h3 : p[st.pRLE + 3]? = some d2) (h4 : p[st.pRLE + 4]? = some d3) :
    ∃ st1, LEDStepOnce p pal st = some st1 ∧
      ∀ k, k < f + 1 → ∃ stk, LEDStep p pal k st1 = some stk ∧
        stk.r = (pal (3 * i) + k * d1) % 256 ∧
        stk.g = (pal (3 * i + 1) + k * d2) % 256 ∧
        stk.b = (pal (3 * i + 2) + k * d3) % 256 := by
  have hm := mask_grad hf
  have hne : (0x80 + f) ≠ 0xc0 := by omega
  have hdec : LEDStepOnce p pal st = some { st with
      iCount := f, lastOP := 0x80,
      r := pal (3 * i) % 256, g := pal (3 * i + 1) % 256,
      b := pal (3 * i + 2) % 256,
      dr := d1, dg := d2, db := d3, pRLE := st.pRLE + 1 + 4 } := by
    rw [LEDStepOnce_fetch p pal st _ hC h0 hne]
    unfold decodeOp
    rw [if_neg (by rw [hm.2]; omega), if_neg (by rw [hm.2]; omega),
      if_pos hm.2]
    have e2 : st.pRLE + 1 + 1 = st.pRLE + 2 := by omega
    have e3 : st.pRLE + 1 + 2 = st.pRLE + 3 := by omega
    have e4 : st.pRLE + 1 + 3 = st.pRLE + 4 := by omega
    rw [e2, e3, e4, h1, h2, h3, h4]
    dsimp only
    rw [hm.1, hm.2]
  refine ⟨_, hdec, ?_⟩
  intro k hk
  have hcont := LEDStep_cont_grad p pal k
    ({ st with
       iCount := f, lastOP := 0x80,
       r := pal (3 * i) % 256, g := pal (3 * i + 1) % 256,
       b := pal (3 * i + 2) % 256,
       dr := d1, dg := d2, db := d3, pRLE := st.pRLE + 1 + 4 } : LEDSTRING)
    rfl (by show k ≤ f; omega)
    (Nat.mod_lt _ (by omega)) (Nat.mod_lt _ (by omega))
    (Nat.mod_lt _ (by omega))
  refine ⟨_, hcont, ?_, ?_, ?_⟩
  · show (pal (3 * i) % 256 + k * d1) % 256 = (pal (3 * i) + k * d1) % 256
    rw [Nat.mod_add_mod]
  · show (pal (3 * i + 1) % 256 + k * d2) % 256
      = (pal (3 * i + 1) + k * d2) % 256
    rw [Nat.mod_add_mod]
  · show (pal (3 * i + 2) % 256 + k * d3) % 256
      = (pal (3 * i + 2) + k * d3) % 256
    rw [Nat.mod_add_mod]

/-- C7: decoding a GAP opcode (a byte below 0x40, i.e. mode bits 00, whose
low six bits are the length field `f`) stores black in all three channels,
and the whole run of `f + 1` pixels is emitted as (0, 0, 0): GAP is not
GRADIENT, so the continuation steps never change the stored color. -/
theorem C7_gap_black (p : List Nat) (pal : Nat → Nat) (st : LEDSTRING)
    (f : Nat) (hf : f < 64) (hC : st.iCount = 0)
    (h0 : p[st.pRLE]? = some f) :
    ∃ st1, LEDStepOnce p pal st = some st1 ∧
      ∀ k, k < f + 1 → ∃ stk, LEDStep p pal k st1 = some stk ∧
        stk.r = 0 ∧ stk.g = 0 ∧ stk.b = 0 := by
  have hm := mask_gap hf
  have hne : f ≠ 0xc0 := by omega
  have hdec : LEDStepOnce p pal st = some { st with
      iCount := f, lastOP := 0, r := 0, g := 0, b := 0,
      pRLE := st.pRLE + 1 } := by
    rw [LEDStepOnce_fetch p pal st _ hC h0 hne]
    unfold decodeOp
    rw [if_pos hm.2, hm.1, hm.2]
  refine ⟨_, hdec, ?_⟩
  intro k hk
  have hcont := LEDStep_cont_other p pal k
    ({ st with
       iCount := f, lastOP := 0, r := 0, g := 0, b := 0,
       pRLE := st.pRLE + 1 } : LEDSTRING)
    (by show (0 : Nat) ≠ 0x80; omega) (by show k ≤ f; omega)
  exact ⟨_, hcont, rfl, rfl, rfl⟩

/-- Decoding ignores the stale cursor stored in the base state — it
overwrites `pRLE` in every branch and never reads it. -/
lemma decodeOp_base_pRLE (p : List Nat) (pal : Nat → Nat) (st : LEDSTRING)
    (x bOp s : Nat) :
    decodeOp p pal { st with pRLE := x } bOp s = decodeOp p pal st bOp s := rfl

/-- C3 (amended): the restart check compares the fetched byte against the
exact value 0xc0 (`MODE_END`), i.e. mode bits 11 *and* length field 0.
When an exhausted state's cursor sits on that byte, the step behaves
exactly as if the cursor had been at the program start: the cursor is reset
and the opcode at position 0 is decoded by this same Advance, so the END
sentinel itself never produces an emitted pixel.  (The hypothesis that the
byte at position 0 is itself not 0xc0 is needed because the code checks for
END only once per step.) -/
theorem C3_end_restart (p : List Nat) (pal : Nat → Nat) (st : LEDSTRING)
    (b0 : Nat) (hC : st.iCount = 0) (hEnd : p[st.pRLE]? = some 0xc0)
    (h0 : p[0]? = some b0) (hb0 : b0 ≠ 0xc0) :
    LEDStepOnce p pal st = LEDStepOnce p pal { st with pRLE := 0 } := by
  rw [LEDStepOnce_fetch_end p pal st 0xc0 b0 hC hEnd rfl h0]
  rw [LEDStepOnce_fetch p pal { st with pRLE := 0 } b0
    (show ({ st with pRLE := 0 } : LEDSTRING).iCount = 0 from hC)
    (show p[({ st with pRLE := 0 } : LEDSTRING).pRLE]? = some b0 from h0) hb0]
  rfl

/-- C8 (amended): for a well-formed program **whose runs are all
GAP/SOLID/GRADIENT** — complete opcodes with all their parameter bytes,
terminated by the END sentinel at an opcode boundary — initialization
succeeds and every number of Advance steps succeeds, i.e. no fetch ever
touches an index at or past the program buffer's length (an out-of-bounds
fetch would make the embedding return `none`).  The restriction to
non-PULSE runs is forced: a well-formed program containing a PULSE opcode
defeats the safety on the `neopixel.ino` Advance path, because `LEDStep`
has no PULSE arm and consumes only the opcode byte, leaving the cursor
desynchronized inside the nine parameter bytes — see the counterexample
below. -/
theorem C8_no_oob_reads (rs : List LRun) (pal : Nat → Nat) (N : Nat)
    (hwf : ∀ r ∈ rs, runWF r) (hne : rs ≠ []) :
    ∃ s0, LEDInit (encProg rs) pal N = some s0 ∧
      ∀ k, (LEDStep (encProg rs) pal k s0).isSome := by
  obtain ⟨r0, hr0⟩ := exists_head hne
  have hf0 : runField r0 < 64 := (hwf r0 (List.getElem?_mem hr0)).1
  refine ⟨_, LEDInit_encProg pal N hr0 hf0, ?_⟩
  intro k
  obtain ⟨t, ht, _⟩ := inv_stepN rs pal hwf hne k _
    (InvP_init rs pal N hwf hne hr0)
  rw [ht]
  rfl

/-- A well-formed program in the sense of the claim — complete opcodes
with all their required parameter bytes, END sentinel at an opcode
boundary — containing one PULSE run: opcode byte 0x01 (mode PULSE, length
field 1), its nine parameter bytes (start (0,0,0), deltas (1,1,1), end
(0, 0, 0x85)), and the END byte at offset 10.  Buffer length 11. -/
def progC8 : List Nat := [0x01, 0, 0, 0, 1, 1, 1, 0, 0, 0x85, 0xc0]

/-- C8 counterexample: on the well-formed PULSE program `progC8`,
`neopixel.ino`'s initialization succeeds, but Advance steps read past the
11-byte buffer.  `LEDInit` consumes the PULSE opcode and its nine
parameters (cursor 10, count 1); after the count runs out, the END restart
re-fetches the PULSE opcode — but `LEDStep`'s switch has no PULSE arm, so
only the opcode byte is consumed and the cursor drifts through the
parameter bytes one pseudo-opcode at a time.  After 14 advances the cursor
sits at offset 9, on the parameter byte 0x85; the 15th advance misreads it
as a GRADIENT opcode and fetches its palette-index and delta bytes at
offsets 10–13, of which 11–13 lie past the buffer: the step returns
`none`, an out-of-bounds read.  This refutes the claim as stated, whose
precondition admits PULSE opcodes. -/
theorem C8_oob_counterexample :
    (Ino.LEDInit progC8 (fun _ => 0) 60).isSome = true ∧
    ((Ino.LEDInit progC8 (fun _ => 0) 60).bind
      (Ino.LEDStep progC8 (fun _ => 0) 14)).map
      (fun s => (s.pRLE, s.iCount)) = some (9, 0) ∧
    ((Ino.LEDInit progC8 (fun _ => 0) 60).bind
      (Ino.LEDStep progC8 (fun _ => 0) 15)) = none := by
  decide

/-- C9: in every state reachable from initialization of a well-formed
program by Advance steps, the remaining run count lies in [0, 64] (in fact
below 64, since it is the 6-bit length field), and each Advance emits one
pixel and accounts for it exactly once: while the count is positive the
step decrements it by exactly one, and when it is zero the step decodes the
next opcode, whose first pixel is the one being emitted, leaving the
remaining count at that opcode's length field (again below 64). -/
theorem C9_count_invariant (rs : List LRun) (pal : Nat → Nat) (N : Nat)
    (hwf : ∀ r ∈ rs, runWF r) (hne : rs ≠ []) :
    ∃ s0, LEDInit (encProg rs) pal N = some s0 ∧
      ∀ k t, LEDStep (encProg rs) pal k s0 = some t →
        t.iCount ≤ 64 ∧
        ∃ u, LEDStepOnce (encProg rs) pal t = some u ∧
          (0 < t.iCount → u.iCount = t.iCount - 1) ∧
          (t.iCount = 0 → u.iCount < 64) := by
  obtain ⟨r0, hr0⟩ := exists_head hne
  have hf0 : runField r0 < 64 := (hwf r0 (List.getElem?_mem hr0)).1
  refine ⟨_, LEDInit_encProg pal N hr0 hf0, ?_⟩
  intro k t ht
  obtain ⟨t2, ht2, hInv⟩ := inv_stepN rs pal hwf hne k _
    (InvP_init rs pal N hwf hne hr0)
  rw [ht] at ht2
  injection ht2 with e
  subst e
  obtain ⟨u, hu, hInv2, hdec, hnew⟩ := inv_step rs pal hwf hne t hInv
  obtain ⟨_, hlt⟩ := hInv
  exact ⟨by omega, u, hu, hdec, hnew⟩

lemma applyRun_rgb_eq (pal : Nat → Nat) (r : LRun) (s t : LEDSTRING)
    (c c2 : Nat) :
    (applyRun pal r s c).r = (applyRun pal r t c2).r ∧
    (applyRun pal r s c).g = (applyRun pal r t c2).g ∧
    (applyRun pal r s c).b = (applyRun pal r t c2).b := by
  cases r <;> exact ⟨rfl, rfl, rfl⟩

/-- C4 (amended): for a well-formed program of GAP/SOLID/GRADIENT runs
terminated by END, the state reached after `sumLen rs` single-step
advances (the total pixel count of one pass) agrees with the state right
after initialization on every field except possibly the stored delta bytes
`dr`, `dg`, `db` (a GAP or SOLID decode does not reload them, so after a
full pass they hold the deltas of the program's last GRADIENT run instead
of the initializer's zeroes), and the emitted colors are nevertheless
exactly periodic with period `sumLen rs`: for every `k`, the color of the
state after `sumLen rs + k` advances equals the color after `k` advances. -/
theorem C4_cycle (rs : List LRun) (pal : Nat → Nat) (N : Nat)
    (hwf : ∀ r ∈ rs, runWF r) (hne : rs ≠ []) :
    ∃ s0 s1, LEDInit (encProg rs) pal N = some s0 ∧
      LEDStep (encProg rs) pal (sumLen rs) s0 = some s1 ∧
      eqCore s1 s0 ∧
      ∀ k, ∃ t u, LEDStep (encProg rs) pal k s0 = some t ∧
        LEDStep (encProg rs) pal (sumLen rs + k) s0 = some u ∧
        u.r = t.r ∧ u.g = t.g ∧ u.b = t.b := by
  cases rs with
  | nil => exact absurd rfl hne
  | cons r0 rest =>
  have hr0 : (r0 :: rest)[0]? = some r0 := by simp
  have hf0 : runField r0 < 64 := (hwf r0 (by simp)).1
  have hinit := LEDInit_encProg pal N hr0 hf0
  have hwalk := walk_suffix pal (r0 :: rest) hwf r0 hr0 rest [] r0 rfl
    (applyRun pal r0 (zeroState N) (off (r0 :: rest) 1))
    (applyRun_iCount pal r0 (zeroState N) (off (r0 :: rest) 1))
    (applyRun_lastOP pal r0 (zeroState N) (off (r0 :: rest) 1))
    ((applyRun_pRLE pal r0 (zeroState N) (off (r0 :: rest) 1)).trans rfl)
    (applyRun_colors_lt pal r0 (zeroState N) (off (r0 :: rest) 1)).1
    (applyRun_colors_lt pal r0 (zeroState N) (off (r0 :: rest) 1)).2.1
    (applyRun_colors_lt pal r0 (zeroState N) (off (r0 :: rest) 1)).2.2
  have ec : sumLen (r0 :: rest) = runField r0 + 1 + sumLen rest := rfl
  rw [← ec] at hwalk
  refine ⟨_, _, hinit, hwalk, ?_, ?_⟩
  · -- agreement on every field but the deltas
    refine ⟨(applyRun_iLen _ _ _ _).trans rfl,
      (applyRun_lastOP _ _ _ _).trans (applyRun_lastOP _ _ _ _).symm,
      (applyRun_pRLE _ _ _ _).trans (applyRun_pRLE _ _ _ _).symm,
      (applyRun_iCount _ _ _ _).trans (applyRun_iCount _ _ _ _).symm,
      (applyRun_rgb_eq _ _ _ _ _ _).1,
      (applyRun_rgb_eq _ _ _ _ _ _).2.1,
      (applyRun_rgb_eq _ _ _ _ _ _).2.2,
      (applyRun_iDir _ _ _ _).trans rfl,
      (applyRun_sr _ _ _ _).trans rfl,
      (applyRun_sg _ _ _ _).trans rfl,
      (applyRun_sb _ _ _ _).trans rfl,
      (applyRun_er _ _ _ _).trans rfl,
      (applyRun_eg _ _ _ _).trans rfl,
      (applyRun_eb _ _ _ _).trans rfl⟩
  · -- color periodicity
    intro k
    have hInv0 := InvP_init (r0 :: rest) pal N hwf hne hr0
    obtain ⟨t, ht, _⟩ := inv_stepN (r0 :: rest) pal hwf hne k _ hInv0
    -- the cycle state written as the post-init state with deltas replaced
    have hs1eq : applyRun pal r0
        (setDeltas (applyRun pal r0 (zeroState N) (off (r0 :: rest) 1))
          (deltaAfter
            (deltas (applyRun pal r0 (zeroState N) (off (r0 :: rest) 1)))
            rest))
        (off (r0 :: rest) 1)
        = setDeltas (applyRun pal r0 (zeroState N) (off (r0 :: rest) 1))
            (deltas (applyRun pal r0
              (setDeltas (applyRun pal r0 (zeroState N) (off (r0 :: rest) 1))
                (deltaAfter
                  (deltas (applyRun pal r0 (zeroState N)
                    (off (r0 :: rest) 1))) rest))
              (off (r0 :: rest) 1))) := by
      apply LEDSTRING.ext
      · exact (applyRun_iLen _ _ _ _).trans rfl
      · exact (applyRun_lastOP _ _ _ _).trans
          (applyRun_lastOP _ _ _ _).symm
      · exact (applyRun_pRLE _ _ _ _).trans (applyRun_pRLE _ _ _ _).symm
      · exact (applyRun_iCount _ _ _ _).trans
          (applyRun_iCount _ _ _ _).symm
      · exact (applyRun_iDir _ _ _ _).trans rfl
      · exact (applyRun_rgb_eq _ _ _ _ _ _).1
      · exact (applyRun_rgb_eq _ _ _ _ _ _).2.1
      · exact (applyRun_rgb_eq _ _ _ _ _ _).2.2
      · rfl
      · rfl
      · rfl
      · exact (applyRun_sr _ _ _ _).trans rfl
      · exact (applyRun_sg _ _ _ _).trans rfl
      · exact (applyRun_sb _ _ _ _).trans rfl
      · exact (applyRun_er _ _ _ _).trans rfl
      · exact (applyRun_eg _ _ _ _).trans rfl
      · exact (applyRun_eb _ _ _ _).trans rfl
    have hpin : (applyRun pal r0 (zeroState N)
        (off (r0 :: rest) 1)).lastOP = 0x80 →
        deltas (applyRun pal r0
          (setDeltas (applyRun pal r0 (zeroState N) (off (r0 :: rest) 1))
            (deltaAfter
              (deltas (applyRun pal r0 (zeroState N) (off (r0 :: rest) 1)))
              rest))
          (off (r0 :: rest) 1))
          = deltas (applyRun pal r0 (zeroState N) (off (r0 :: rest) 1)) := by
      intro hOP80
      have hrm : runMode r0 = 0x80 :=
        (applyRun_lastOP pal r0 (zeroState N) (off (r0 :: rest) 1)).symm.trans
          hOP80
      cases r0 with
      | gap l => simp [runMode] at hrm
      | solid l i => simp [runMode] at hrm
      | grad l i d1 d2 d3 =>
        rw [applyRun_deltas, applyRun_deltas]
        rfl
    obtain ⟨D1, _, hstep2⟩ := LEDStep_setDeltas (encProg (r0 :: rest)) pal k
      (applyRun pal r0 (zeroState N) (off (r0 :: rest) 1))
      (deltas (applyRun pal r0
        (setDeltas (applyRun pal r0 (zeroState N) (off (r0 :: rest) 1))
          (deltaAfter
            (deltas (applyRun pal r0 (zeroState N) (off (r0 :: rest) 1)))
            rest))
        (off (r0 :: rest) 1)))
      hpin t ht
    refine ⟨t, setDeltas t D1, ht, ?_, rfl, rfl, rfl⟩
    rw [LEDStep_add, hwalk, Option.some_bind, hs1eq]
    exact hstep2

/-- Fetch reduction for the `neopixel.ino` step when the opcode byte is not
the END sentinel. -/
lemma Ino.stepOnce_fetch (p : List Nat) (pal : Nat → Nat) (st : LEDSTRING)
    (b0 : Nat) (hC : st.iCount = 0) (hfetch : p[st.pRLE]? = some b0)
    (hne : b0 ≠ 0xc0) :
    Ino.LEDStepOnce p pal st = Ino.decodeOp p pal st b0 (st.pRLE + 1) := by
  unfold Ino.LEDStepOnce
  rw [if_neg (by omega), hfetch]
  dsimp only
  rw [if_neg hne]

/-- C6 (amended): the PULSE parameter loading happens at initialization,
not during Advance.  `LEDInit` on a program whose first opcode byte has
mode bits 00 (`MODE_PULSE`) with length field `f` loads the start color
into the current color and the start bounds, the three delta bytes, and
the end bounds from the nine parameter bytes, initializes the direction
flag to forward (`iDir = 0`), sets the count to `f`, and advances the
cursor past all nine parameter bytes (to 10).  An Advance step (`LEDStep`)
that decodes a PULSE opcode, by contrast, only sets the count and mode and
advances the cursor past the single opcode byte, consuming none of the
parameter bytes and loading nothing. -/
theorem C6_pulse_load (p : List Nat) (pal : Nat → Nat) (N : Nat)
    (f a1 a2 a3 d1 d2 d3 e1 e2 e3 : Nat) (hf : f < 64)
    (h0 : p[0]? = some f) (h1 : p[1]? = some a1) (h2 : p[2]? = some a2)
    (h3 : p[3]? = some a3) (h4 : p[4]? = some d1) (h5 : p[5]? = some d2)
    (h6 : p[6]? = some d3) (h7 : p[7]? = some e1) (h8 : p[8]? = some e2)
    (h9 : p[9]? = some e3) :
    Ino.LEDInit p pal N = some { zeroState N with
      iCount := f, lastOP := 0, pRLE := 10,
      r := a1, g := a2, b := a3, sr := a1, sg := a2, sb := a3,
      dr := d1, dg := d2, db := d3, er := e1, eg := e2, eb := e3 } ∧
    ∀ st : LEDSTRING, st.iCount = 0 → ∀ fp, fp < 64 →
      p[st.pRLE]? = some fp →
      Ino.LEDStepOnce p pal st
        = some { st with iCount := fp, lastOP := 0, pRLE := st.pRLE + 1 } := by
  have hm := mask_gap hf
  constructor
  · unfold Ino.LEDInit
    rw [h0]
    dsimp only
    rw [if_pos hm.2, h1, h2, h3, h4, h5, h6, h7, h8, h9]
    dsimp only
    rw [hm.1, hm.2]
    rfl
  · intro st hC fp hfp hfetch
    have hmp := mask_gap hfp
    rw [Ino.stepOnce_fetch p pal st fp hC hfetch (by omega)]
    unfold Ino.decodeOp
    rw [if_neg (by rw [hmp.2]; omega), if_neg (by rw [hmp.2]; omega),
      hmp.1, hmp.2]

/-- Program used to exhibit C6's failure: two PULSE opcodes (length field
0 each, different start colors, deltas and end colors) followed by END. -/
def progC6 : List Nat :=
  [0, 1, 2, 3, 1, 1, 1, 9, 9, 9, 0, 21, 22, 23, 2, 2, 2, 31, 32, 33, 0xc0]

/-- C6 counterexample: after `LEDInit` on `progC6` (which decodes the first
PULSE and leaves the cursor at 10, on the second PULSE opcode), a single
Advance decodes that second PULSE opcode — but the claim's promised effects
do not happen: the cursor moves only to 11 (not past the nine parameter
bytes to 20), the current color stays (1, 2, 3) instead of becoming the new
start bound (21, 22, 23), and the stored end bound stays 9 instead of 31.
Only the count and mode were set. -/
theorem C6_pulse_counterexample :
    ((Ino.LEDInit progC6 (fun _ => 0) 60).bind
      (Ino.LEDStep progC6 (fun _ => 0) 1)).map
      (fun s => (s.pRLE, s.r, s.g, s.b, s.er)) = some (11, 1, 2, 3, 9) := by
  decide

/-- The state on which `LEDPulse` is probed: a pulse with start bound
(0, 0, 0), deltas (0, 0, +1) and end bound (0, 0, 10) that has advanced one
step (current color (0, 0, 1)), moving forward — exactly the second step of
a program like the demo pulse tables with only the blue channel moving. -/
def pulseBugState : LEDSTRING :=
  { iLen := 60, lastOP := 0, pRLE := 10, iCount := 59, iDir := 0,
    r := 0, g := 0, b := 1, dr := 0, dg := 0, db := 1,
    sr := 0, sg := 0, sb := 0, er := 0, eg := 0, eb := 10 }

/-- C2: the bound-crossing test is *not* the same symmetric rule on all
three channels.  On `pulseBugState` the blue candidate is 2, strictly
inside the configured travel [0, 10], so the claim says no reversal happens
and the stored blue becomes 2 (as `LEDPulseSpec`, the spec's symmetric
rule, does).  The code (`Ino.LEDPulse`, faithful to `neopixel.ino` lines
341/343) instead compares the candidate against the truth value of
`eb || b < sb` — which is 1 — so it reverses and clamps blue to the end
bound 10 and flips the direction flag, even though no bound was passed. -/
theorem C2_pulse_asymmetric_bug :
    (Ino.LEDPulse pulseBugState).b = 10 ∧
    (Ino.LEDPulse pulseBugState).iDir = 1 ∧
    (LEDPulseSpec pulseBugState).b = 2 ∧
    (LEDPulseSpec pulseBugState).iDir = 0 := by
  decide

/-- The decode switch inlined in `LEDShow` computes exactly what the
decode switch of `LEDStep` computes (the C source duplicates the code
verbatim, with `iOff` for `i`). -/
lemma Ino.decodeShow_eq : @Ino.decodeShow = @Ino.decodeOp := rfl

/-- Unfolding one iteration of the `LEDShow` loop: emit the current color,
then run the inlined step body — which is the `LEDStep` single-step
function. -/
lemma Ino.LEDShowGo_succ (p : List Nat) (pal : Nat → Nat) (n : Nat)
    (st : LEDSTRING) :
    Ino.LEDShowGo p pal (n + 1) st
      = match Ino.LEDStepOnce p pal st with
        | none => none
        | some st1 => (Ino.LEDShowGo p pal n st1).map
            fun L => (st.r, st.g, st.b) :: L := rfl

/-- The `LEDShow` loop over `n` pixels, when every one of the `n` inlined
steps succeeds, emits exactly `n` colors, the i-th of which is the current
color of the state reached by `i` single steps from the loop's start. -/
lemma Ino.LEDShowGo_spec (p : List Nat) (pal : Nat → Nat) :
    ∀ (n : Nat) (st : LEDSTRING), (Ino.LEDStep p pal n st).isSome →
    ∃ L, Ino.LEDShowGo p pal n st = some L ∧ L.length = n ∧
      ∀ i, i < n → ∃ ti, Ino.LEDStep p pal i st = some ti ∧
        L[i]? = some (ti.r, ti.g, ti.b) := by
  intro n
  induction n with
  | zero => intro st h; exact ⟨[], rfl, rfl, by omega⟩
  | succ n ih =>
    intro st h
    cases hmid : Ino.LEDStepOnce p pal st with
    | none =>
      rw [show Ino.LEDStep p pal (n + 1) st
          = (Ino.LEDStepOnce p pal st).bind (Ino.LEDStep p pal n) from rfl,
        hmid] at h
      simp at h
    | some mid =>
      have hrest : (Ino.LEDStep p pal n mid).isSome := by
        rw [show Ino.LEDStep p pal (n + 1) st
            = (Ino.LEDStepOnce p pal st).bind (Ino.LEDStep p pal n) from rfl,
          hmid, Option.some_bind] at h
        exact h
      obtain ⟨L, hL, hlen, hidx⟩ := ih mid hrest
      refine ⟨(st.r, st.g, st.b) :: L, ?_, by simp [hlen], ?_⟩
      · rw [Ino.LEDShowGo_succ, hmid]
        dsimp only
        rw [hL]
        rfl
      · intro i hi
        cases i with
        | zero => exact ⟨st, rfl, by simp⟩
        | succ i =>
          obtain ⟨ti, hti, hLi⟩ := hidx i (by omega)
          refine ⟨ti, ?_, ?_⟩
          · rw [show Ino.LEDStep p pal (i + 1) st
                = (Ino.LEDStepOnce p pal st).bind (Ino.LEDStep p pal i)
                from rfl, hmid, Option.some_bind]
            exact hti
          · simpa using hLi

/-- C5: rendering a frame over `iLen` pixels emits exactly `iLen` colors,
and the i-th emitted color (0-indexed) is the current color of the state
obtained by `i` single `LEDStep` advances from the pre-frame state — the
per-pixel logic inlined in `LEDShow` is one `LEDStep` single step per pixel
in "read current color, then advance" order.  The hypothesis asks that the
`iLen` advances succeed, i.e. that no fetch leaves the program buffer; for
well-formed programs this always holds (see the safety claim). -/
theorem C5_show_per_pixel (p : List Nat) (pal : Nat → Nat) (st : LEDSTRING)
    (h : (Ino.LEDStep p pal st.iLen st).isSome) :
    ∃ L, Ino.LEDShow p pal st = some L ∧ L.length = st.iLen ∧
      ∀ i, i < st.iLen → ∃ ti, Ino.LEDStep p pal i st = some ti ∧
        L[i]? = some (ti.r, ti.g, ti.b) :=
  Ino.LEDShowGo_spec p pal st.iLen st h

/-- C10: `LEDShow` never modifies the caller-visible state.  The embedding
`LEDShowRet` returns what the caller observes after the call: the C
function `memcpy`s the state into a local and writes only through that
local, so the caller's struct is the unchanged argument.  Consequently the
returned state equals the input, and calling `LEDShow` again on it (with no
intervening `LEDStep`/`LEDPulse`) emits the identical frame. -/
theorem C10_show_no_mutation (p : List Nat) (pal : Nat → Nat)
    (st : LEDSTRING) (L : List (Nat × Nat × Nat)) (st1 : LEDSTRING)
    (h : Ino.LEDShowRet p pal st = some (L, st1)) :
    st1 = st ∧ Ino.LEDShowRet p pal st1 = some (L, st1) := by
  unfold Ino.LEDShowRet at h ⊢
  cases hs : Ino.LEDShow p pal st with
  | none => rw [hs] at h; exact absurd h (by simp)
  | some L2 =>
    rw [hs] at h
    dsimp only [Option.map] at h
    injection h with h2
    injection h2 with e1 e2
    subst e1
    subst e2
    exact ⟨rfl, by rw [hs]; rfl⟩

/-- Program exhibiting C3's failure: a SOLID run, then the byte 0xc1 —
mode bits 11 but a nonzero length field — then the real END byte 0xc0. -/
def progC3 : List Nat := [0x40, 0, 0xc1, 0xc0]

/-- C3 counterexample: after `LEDInit` (which consumes the SOLID opcode and
leaves the cursor at 2, on the byte 0xc1), one Advance fetches 0xc1.  Its
mode bits are 11, so under the claim the cursor would be reset to the
program start and the SOLID opcode there decoded (leaving cursor 2,
mode 0x40, count 0).  The code compares the whole byte against 0xc0, so
0xc1 is instead consumed as an ordinary opcode: cursor 3, mode 0xc0,
count 1 — no restart. -/
theorem C3_end_counterexample :
    ((LEDInit progC3 (fun _ => 0) 60).bind
      (LEDStepOnce progC3 (fun _ => 0))).map
      (fun s => (s.pRLE, s.lastOP, s.iCount)) = some (3, 0xc0, 1) := by
  decide

/-- The two-run program — SOLID(field 0, index 0) then
GRADIENT(field 0, index 0, deltas (1, 0, 0)) — used to exhibit C4's
failure; `sumLen` of it is 2. -/
def progC4runs : List LRun := [LRun.solid 0 0, LRun.grad 0 0 1 0 0]

/-- C4 counterexample: on `encProg progC4runs` the post-initialization
state has delta bytes (0, 0, 0) (from the `memset`; the first run is
SOLID, which does not load deltas), but after `sumLen progC4runs = 2`
advances — one full pass, ending with END-restart re-decoding the SOLID —
the stored `dr` is 1, left over from the GRADIENT run.  So the state after
the sum of all run lengths does *not* equal the state immediately after
initialization, refuting the claim's state equality (the emitted colors
are still periodic; see the amended theorem). -/
theorem C4_cycle_counterexample :
    (LEDInit (encProg progC4runs) (fun _ => 0) 60).map LEDSTRING.dr
        = some 0 ∧
    ((LEDInit (encProg progC4runs) (fun _ => 0) 60).bind
      (LEDStep (encProg progC4runs) (fun _ => 0) (sumLen progC4runs))).map
      LEDSTRING.dr = some 1 := by
  decide

/-! ## Concrete instantiations of the conditional theorems -/

instance runWF_decidable (r : LRun) : Decidable (runWF r) :=
  inferInstanceAs (Decidable (runField r < 64 ∧ ∀ x ∈ encRun r, x < 256))

theorem C1_gradient_run_witness :
    ∃ st1, LEDStepOnce [0x81, 0, 5, 0, 0, 0xc0] (fun _ => 7) (zeroState 3)
        = some st1 ∧
      ∀ k, k < 1 + 1 → ∃ stk,
        LEDStep [0x81, 0, 5, 0, 0, 0xc0] (fun _ => 7) k st1 = some stk ∧
        stk.r = (7 + k * 5) % 256 ∧
        stk.g = (7 + k * 0) % 256 ∧
        stk.b = (7 + k * 0) % 256 :=
  C1_gradient_run [0x81, 0, 5, 0, 0, 0xc0] (fun _ => 7) (zeroState 3)
    1 0 5 0 0 (by decide) (by decide) (by decide) (by decide) (by decide)
    (by decide) (by decide)

/-- A state whose cursor sits on the END byte of the program
`[SOLID(0) 5, END]`, as reached right after initialization. -/
def stC3w : LEDSTRING := { zeroState 4 with pRLE := 2 }

theorem C3_end_restart_witness :
    LEDStepOnce [0x40, 5, 0xc0] (fun _ => 1) stC3w
      = LEDStepOnce [0x40, 5, 0xc0] (fun _ => 1) { stC3w with pRLE := 0 } :=
  C3_end_restart [0x40, 5, 0xc0] (fun _ => 1) stC3w 0x40 (by decide)
    (by decide) (by decide) (by decide)

theorem C4_cycle_witness :
    ∃ s0 s1, LEDInit (encProg progC4runs) (fun _ => 3) 60 = some s0 ∧
      LEDStep (encProg progC4runs) (fun _ => 3) (sumLen progC4runs) s0
        = some s1 ∧
      eqCore s1 s0 ∧
      ∀ k, ∃ t u, LEDStep (encProg progC4runs) (fun _ => 3) k s0 = some t ∧
        LEDStep (encProg progC4runs) (fun _ => 3) (sumLen progC4runs + k) s0
          = some u ∧
        u.r = t.r ∧ u.g = t.g ∧ u.b = t.b :=
  C4_cycle progC4runs (fun _ => 3) 60 (by decide) (by decide)

/-- A one-pixel string state in a run with remaining count, used to probe
`LEDShow` without any program fetch. -/
def stC5w : LEDSTRING := { zeroState 1 with iCount := 1 }

theorem C5_show_per_pixel_witness :
    ∃ L, Ino.LEDShow [] (fun _ => 0) stC5w = some L ∧
      L.length = stC5w.iLen ∧
      ∀ i, i < stC5w.iLen →
        ∃ ti, Ino.LEDStep [] (fun _ => 0) i stC5w = some ti ∧
          L[i]? = some (ti.r, ti.g, ti.b) :=
  C5_show_per_pixel [] (fun _ => 0) stC5w (by decide)

theorem C6_pulse_load_witness :
    Ino.LEDInit progC6 (fun _ => 0) 60 = some { zeroState 60 with
      iCount := 0, lastOP := 0, pRLE := 10,
      r := 1, g := 2, b := 3, sr := 1, sg := 2, sb := 3,
      dr := 1, dg := 1, db := 1, er := 9, eg := 9, eb := 9 } ∧
    ∀ st : LEDSTRING, st.iCount = 0 → ∀ fp, fp < 64 →
      progC6[st.pRLE]? = some fp →
      Ino.LEDStepOnce progC6 (fun _ => 0) st
        = some { st with iCount := fp, lastOP := 0, pRLE := st.pRLE + 1 } :=
  C6_pulse_load progC6 (fun _ => 0) 60 0 1 2 3 1 1 1 9 9 9 (by decide)
    (by decide) (by decide) (by decide) (by decide) (by decide) (by decide)
    (by decide) (by decide) (by decide) (by decide)

theorem C7_gap_black_witness :
    ∃ st1, LEDStepOnce [2, 0xc0] (fun _ => 0) (zeroState 5) = some st1 ∧
      ∀ k, k < 2 + 1 → ∃ stk,
        LEDStep [2, 0xc0] (fun _ => 0) k st1 = some stk ∧
        stk.r = 0 ∧ stk.g = 0 ∧ stk.b = 0 :=
  C7_gap_black [2, 0xc0] (fun _ => 0) (zeroState 5) 2 (by decide) (by decide)
    (by decide)

theorem C8_no_oob_reads_witness :
    ∃ s0, LEDInit (encProg [LRun.solid 1 0]) (fun _ => 2) 60 = some s0 ∧
      ∀ k, (LEDStep (encProg [LRun.solid 1 0]) (fun _ => 2) k s0).isSome :=
  C8_no_oob_reads [LRun.solid 1 0] (fun _ => 2) 60 (by decide) (by decide)

theorem C9_count_invariant_witness :
    ∃ s0, LEDInit (encProg [LRun.gap 3]) (fun _ => 0) 60 = some s0 ∧
      ∀ k t, LEDStep (encProg [LRun.gap 3]) (fun _ => 0) k s0 = some t →
        t.iCount ≤ 64 ∧
        ∃ u, LEDStepOnce (encProg [LRun.gap 3]) (fun _ => 0) t = some u ∧
          (0 < t.iCount → u.iCount = t.iCount - 1) ∧
          (t.iCount = 0 → u.iCount < 64) :=
  C9_count_invariant [LRun.gap 3] (fun _ => 0) 60 (by decide) (by decide)

/-- A one-pixel string state in a run with remaining count, used to probe
`LEDShowRet` without any program fetch. -/
def stC10w : LEDSTRING := { zeroState 1 with iCount := 1 }

theorem C10_show_no_mutation_witness :
    stC10w = stC10w ∧ Ino.LEDShowRet [] (fun _ => 0) stC10w
      = some ([(0, 0, 0)], stC10w) :=
  C10_show_no_mutation [] (fun _ => 0) stC10w [(0, 0, 0)] stC10w (by decide)
